import Mathlib

/-!
Shallow embedding of the ghstats metrics pipeline (Rust sources under
`src/`): the repository inclusion filter (`helpers.rs`), the store upsert
and delta semantics (`db_client.rs`), the paginated fetch helper
(`gh_client.rs`), the ingestion loop (`helpers.rs::update_metrics`) and
the star synchronizer (`helpers.rs::sync_stars`).  Strings from the Rust
code are modelled as `List Char`; machine integers (`u32`/`i32`/SQLite
INTEGER) are modelled as `Nat`/`Int` (all stored counters are
non-negative in the source, values stay far from overflow).
-/

namespace Ghstats

/-- Strings of the Rust code, modelled as lists of characters. -/
abbrev Str := List Char

/-- ASCII lower-casing of one character, modelling Rust `to_lowercase`
on the ASCII names the filter deals with. -/
def lowerChar (c : Char) : Char :=
  if 'A' ≤ c && c ≤ 'Z' then Char.ofNat (c.toNat + 32) else c

/-- `str::to_lowercase`. -/
def toLowerL (s : Str) : Str := s.map lowerChar

/-- Rust `char::is_whitespace` restricted to the ASCII whitespace. -/
def isWs (c : Char) : Bool := c = ' ' || c = '\t' || c = '\n' || c = '\r'

/-- `str::trim`. -/
def trimL (s : Str) : Str :=
  ((s.dropWhile isWs).reverse.dropWhile isWs).reverse

/-- `s.matches('/').count()`. -/
def countSlash (s : Str) : Nat := s.countP (fun c => c = '/')

/-- `s.starts_with(p)`: first argument is the candidatep pattern. -/
def hasPrefixL : Str → Str → Bool
  | [], _ => true
  | _ :: _, [] => false
  | p :: ps, c :: cs => p = c && hasPrefixL ps cs

/-- `s.ends_with(suf)`. -/
def endsWithL (s suf : Str) : Bool := hasPrefixL suf.reverse s.reverse

/-- `s.contains(pat)` (substring containment). -/
def containsSub (s pat : Str) : Bool :=
  match s with
  | [] => pat.isEmpty
  | _ :: rest => hasPrefixL pat s || containsSub rest pat

/-- `s.split(sep)` - auxiliary accumulator form. -/
def splitOnAux (sep : Char) : Str → Str → List Str
  | [], acc => [acc.reverse]
  | c :: rest, acc =>
    if c = sep then acc.reverse :: splitOnAux sep rest []
    else splitOnAux sep rest (c :: acc)

/-- `s.split(sep)`. -/
def splitOnL (sep : Char) (s : Str) : List Str := splitOnAux sep s []

/-- Lexicographic order on character lists by code point: the ordering
SQLite applies to the TEXT date column (dates are stored in the sortable
format `YYYY-MM-DDT00:00:00Z`). -/
def ltL : Str → Str → Bool
  | [], [] => false
  | [], _ :: _ => true
  | _ :: _, [] => false
  | a :: as, b :: bs => if a = b then ltL as bs else a.toNat < b.toNat

-- MARK: GhsFilter (src/helpers.rs)

/-- `GhsFilter` from `helpers.rs`. -/
structure GhsFilter where
  include_repos : List Str
  exclude_repos : List Str
  exclude_forks : Bool
  exclude_archs : Bool
  default_all : Bool
deriving DecidableEq

/-- Accumulator of the parsing loop in `GhsFilter::new`. -/
def filterStep (acc : GhsFilter) (tok : Str) : GhsFilter :=
  let rule := trimL tok
  if rule = [] then acc
  else if rule = ['*'] then { acc with default_all := true }
  else if rule = ("!fork").toList then { acc with exclude_forks := true }
  else if rule = ("!archived").toList then { acc with exclude_archs := true }
  else if countSlash rule ≠ 1 then acc
  else if rule.head? = some '!' then
    { acc with exclude_repos := acc.exclude_repos ++ [rule.drop 1] }
  else { acc with include_repos := acc.include_repos ++ [rule] }

/-- `GhsFilter::new`, starting from the list of comma-separated tokens
of the (already lower-cased) rule string.  After the loop, if no name
rule was collected at all, `default_all` is turned on. -/
def ofTokens (toks : List Str) : GhsFilter :=
  let acc := toks.foldl filterStep ⟨[], [], false, false, false⟩
  { acc with
    default_all :=
      acc.default_all || (acc.exclude_repos.isEmpty && acc.include_repos.isEmpty) }

/-- `GhsFilter::new` on the raw rule string. -/
def GhsFilter.new (rules : Str) : GhsFilter :=
  ofTokens (splitOnL ',' (toLowerL (trimL rules)))

/-- The wildcard test inside `GhsFilter::is_included`:
`rule.ends_with("/*") && repo.starts_with(&rule[..rule.len() - 2])
&& repo.chars().nth(rule.len() - 2) == Some('/')`. -/
def wildMatch (rule repo : Str) : Bool :=
  endsWithL rule (['/', '*'])
    && hasPrefixL (rule.take (rule.length - 2)) repo
    && repo.get? (rule.length - 2) = some '/'

/-- One pass of the rule loop in `GhsFilter::is_included` over one rule
list: an exact name match fires always; the wildcard test is skipped
when `suppress` holds (repo is a fork/archived and the matching
exclusion flag is set). -/
def scanRules (rules : List Str) (repo : Str) (suppress : Bool) : Bool :=
  match rules with
  | [] => false
  | r :: rest =>
    if r = repo then true
    else if suppress then scanRules rest repo suppress
    else if wildMatch r repo then true
    else scanRules rest repo suppress

/-- The malformed-name guard at the top of `GhsFilter::is_included`:
`repo.is_empty() || repo.matches('/').count() != 1 ||
repo.starts_with('/') || repo.ends_with('/')`. -/
def malformedName (s : Str) : Bool :=
  s = [] || countSlash s ≠ 1 || s.head? = some '/' || s.getLast? = some '/'

/-- `GhsFilter::is_included`.  The Rust loop iterates
`[(false, exclude_repos), (true, include_repos)]` and returns the flag
on the first match; that is the exclude scan followed by the include
scan below. -/
def GhsFilter.is_included (f : GhsFilter) (repo : Str) (is_fork is_arch : Bool) : Bool :=
  let repo := toLowerL (trimL repo)
  if malformedName repo then false
  else
    let suppress := (f.exclude_forks && is_fork) || (f.exclude_archs && is_arch)
    if scanRules f.exclude_repos repo suppress then false
    else if scanRules f.include_repos repo suppress then true
    else if f.exclude_forks && is_fork then false
    else if f.exclude_archs && is_arch then false
    else f.default_all

-- MARK: rule-scan and parsing characterizations

/-- What one token contributes to `exclude_repos` in `GhsFilter::new`. -/
def exclOf (tok : Str) : Option Str :=
  let rule := trimL tok
  if rule = [] then none
  else if rule = ['*'] then none
  else if rule = ("!fork").toList then none
  else if rule = ("!archived").toList then none
  else if countSlash rule ≠ 1 then none
  else if rule.head? = some '!' then some (rule.drop 1)
  else none

/-- What one token contributes to `include_repos` in `GhsFilter::new`. -/
def inclOf (tok : Str) : Option Str :=
  let rule := trimL tok
  if rule = [] then none
  else if rule = ['*'] then none
  else if rule = ("!fork").toList then none
  else if rule = ("!archived").toList then none
  else if countSlash rule ≠ 1 then none
  else if rule.head? = some '!' then none
  else some rule

/-- Does one token set `exclude_forks`. -/
def isForkTok (tok : Str) : Bool := trimL tok = ("!fork").toList

/-- Does one token set `exclude_archs`. -/
def isArchTok (tok : Str) : Bool := trimL tok = ("!archived").toList

/-- Does one token set `default_all` inside the loop. -/
def isStarTok (tok : Str) : Bool := trimL tok = ['*']

theorem filterStep_exclude (acc : GhsFilter) (tok : Str) :
    (filterStep acc tok).exclude_repos = acc.exclude_repos ++ (exclOf tok).toList := by
  simp only [filterStep, exclOf]
  split_ifs <;> simp

theorem filterStep_include (acc : GhsFilter) (tok : Str) :
    (filterStep acc tok).include_repos = acc.include_repos ++ (inclOf tok).toList := by
  simp only [filterStep, inclOf]
  split_ifs <;> simp

theorem filterStep_forks (acc : GhsFilter) (tok : Str) :
    (filterStep acc tok).exclude_forks = (acc.exclude_forks || isForkTok tok) := by
  simp only [filterStep, isForkTok]
  split_ifs <;> simp_all

theorem filterStep_archs (acc : GhsFilter) (tok : Str) :
    (filterStep acc tok).exclude_archs = (acc.exclude_archs || isArchTok tok) := by
  simp only [filterStep, isArchTok]
  split_ifs <;> simp_all

theorem filterStep_star (acc : GhsFilter) (tok : Str) :
    (filterStep acc tok).default_all = (acc.default_all || isStarTok tok) := by
  simp only [filterStep, isStarTok]
  split_ifs <;> simp_all

theorem foldl_filterStep_exclude (toks : List Str) :
    ∀ acc : GhsFilter,
      (toks.foldl filterStep acc).exclude_repos
        = acc.exclude_repos ++ toks.filterMap exclOf := by
  induction toks with
  | nil => intro acc; simp
  | cons t ts ih =>
    intro acc
    simp only [List.foldl_cons, List.filterMap_cons]
    rw [ih, filterStep_exclude]
    cases exclOf t <;> simp

theorem foldl_filterStep_include (toks : List Str) :
    ∀ acc : GhsFilter,
      (toks.foldl filterStep acc).include_repos
        = acc.include_repos ++ toks.filterMap inclOf := by
  induction toks with
  | nil => intro acc; simp
  | cons t ts ih =>
    intro acc
    simp only [List.foldl_cons, List.filterMap_cons]
    rw [ih, filterStep_include]
    cases inclOf t <;> simp

theorem foldl_filterStep_forks (toks : List Str) :
    ∀ acc : GhsFilter,
      (toks.foldl filterStep acc).exclude_forks
        = (acc.exclude_forks || toks.any isForkTok) := by
  induction toks with
  | nil => intro acc; simp
  | cons t ts ih =>
    intro acc
    simp only [List.foldl_cons, List.any_cons]
    rw [ih, filterStep_forks, Bool.or_assoc]

theorem foldl_filterStep_archs (toks : List Str) :
    ∀ acc : GhsFilter,
      (toks.foldl filterStep acc).exclude_archs
        = (acc.exclude_archs || toks.any isArchTok) := by
  induction toks with
  | nil => intro acc; simp
  | cons t ts ih =>
    intro acc
    simp only [List.foldl_cons, List.any_cons]
    rw [ih, filterStep_archs, Bool.or_assoc]

theorem foldl_filterStep_star (toks : List Str) :
    ∀ acc : GhsFilter,
      (toks.foldl filterStep acc).default_all
        = (acc.default_all || toks.any isStarTok) := by
  induction toks with
  | nil => intro acc; simp
  | cons t ts ih =>
    intro acc
    simp only [List.foldl_cons, List.any_cons]
    rw [ih, filterStep_star, Bool.or_assoc]

theorem any_of_perm {α : Type} {l₁ l₂ : List α} (p : α → Bool) (h : l₁.Perm l₂) :
    l₁.any p = l₂.any p := by
  cases h1 : l₁.any p with
  | true =>
    obtain ⟨x, hx, hp⟩ := List.any_eq_true.mp h1
    exact (List.any_eq_true.mpr ⟨x, h.mem_iff.mp hx, hp⟩).symm
  | false =>
    cases h2 : l₂.any p with
    | false => rfl
    | true =>
      obtain ⟨x, hx, hp⟩ := List.any_eq_true.mp h2
      exact absurd (List.any_eq_true.mpr ⟨x, h.mem_iff.mpr hx, hp⟩) (by simp [h1])

theorem scanRules_eq_any (rules : List Str) (repo : Str) (sup : Bool) :
    scanRules rules repo sup
      = rules.any (fun r => decide (r = repo) || (!sup && wildMatch r repo)) := by
  induction rules with
  | nil => rfl
  | cons r rest ih =>
    unfold scanRules
    by_cases h1 : r = repo
    · simp [h1]
    · cases sup <;> cases h2 : wildMatch r repo <;> simp [h1, h2, ih]

theorem scanRules_of_perm {rules₁ rules₂ : List Str} (h : rules₁.Perm rules₂)
    (repo : Str) (sup : Bool) :
    scanRules rules₁ repo sup = scanRules rules₂ repo sup := by
  rw [scanRules_eq_any, scanRules_eq_any, any_of_perm _ h]

theorem is_included_congr {f g : GhsFilter}
    (hexc : f.exclude_repos.Perm g.exclude_repos)
    (hinc : f.include_repos.Perm g.include_repos)
    (hf : f.exclude_forks = g.exclude_forks)
    (ha : f.exclude_archs = g.exclude_archs)
    (hd : f.default_all = g.default_all) :
    ∀ repo is_fork is_arch,
      f.is_included repo is_fork is_arch = g.is_included repo is_fork is_arch := by
  intro repo is_fork is_arch
  simp only [GhsFilter.is_included]
  rw [hf, ha, hd, scanRules_of_perm hexc, scanRules_of_perm hinc]

theorem ofTokens_of_perm {toks₁ toks₂ : List Str} (h : toks₁.Perm toks₂) :
    ∀ repo is_fork is_arch,
      (ofTokens toks₁).is_included repo is_fork is_arch
        = (ofTokens toks₂).is_included repo is_fork is_arch := by
  have hexc : (toks₁.filterMap exclOf).Perm (toks₂.filterMap exclOf) := h.filterMap exclOf
  have hinc : (toks₁.filterMap inclOf).Perm (toks₂.filterMap inclOf) := h.filterMap inclOf
  apply is_included_congr <;>
    simp only [ofTokens, foldl_filterStep_exclude, foldl_filterStep_include,
      foldl_filterStep_forks, foldl_filterStep_archs, foldl_filterStep_star,
      List.nil_append, Bool.false_or]
  · exact hexc
  · exact hinc
  · exact any_of_perm _ h
  · exact any_of_perm _ h
  · rw [any_of_perm _ h, hexc.isEmpty_eq, hinc.isEmpty_eq]

theorem scanRules_suppress (rules : List Str) (repo : Str) :
    scanRules rules repo true = decide (repo ∈ rules) := by
  induction rules with
  | nil => rfl
  | cons r rest ih =>
    unfold scanRules
    by_cases h : r = repo <;> simp [h, ih]
    exact fun hh => absurd hh.symm h

theorem scanRules_of_mem {rules : List Str} {repo : Str} (h : repo ∈ rules)
    (sup : Bool) : scanRules rules repo sup = true := by
  induction rules with
  | nil => cases h
  | cons r rest ih =>
    unfold scanRules
    rcases List.mem_cons.mp h with h' | h'
    · simp [h']
    · split_ifs <;> simp_all

/-- Boolean normal form of `GhsFilter::is_included`: the guard, the two
scans and the fallback flags composed with Boolean connectives. -/
theorem is_included_bool (f : GhsFilter) (repo : Str) (is_fork is_arch : Bool) :
    f.is_included repo is_fork is_arch
      = (!malformedName (toLowerL (trimL repo))
          && !scanRules f.exclude_repos (toLowerL (trimL repo))
                ((f.exclude_forks && is_fork) || (f.exclude_archs && is_arch))
          && (scanRules f.include_repos (toLowerL (trimL repo))
                ((f.exclude_forks && is_fork) || (f.exclude_archs && is_arch))
              || (!(f.exclude_forks && is_fork) && !(f.exclude_archs && is_arch)
                  && f.default_all))) := by
  simp only [GhsFilter.is_included]
  cases hm : malformedName (toLowerL (trimL repo))
  · simp only [hm, Bool.false_eq_true, if_false, Bool.not_false, Bool.true_and]
    cases hse : scanRules f.exclude_repos (toLowerL (trimL repo))
        ((f.exclude_forks && is_fork) || (f.exclude_archs && is_arch))
    · simp only [hse, Bool.false_eq_true, if_false, Bool.not_false, Bool.true_and]
      cases hsi : scanRules f.include_repos (toLowerL (trimL repo))
          ((f.exclude_forks && is_fork) || (f.exclude_archs && is_arch))
      · simp only [hsi, Bool.false_eq_true, if_false, Bool.false_or]
        cases h4 : (f.exclude_forks && is_fork) <;>
          cases h5 : (f.exclude_archs && is_arch) <;> simp [h4, h5]
      · simp [hsi]
    · simp [hse]
  · simp [hm]

theorem is_included_eq_of_malformed (f : GhsFilter) (repo : Str)
    (is_fork is_arch : Bool)
    (h : malformedName (toLowerL (trimL repo)) = true) :
    f.is_included repo is_fork is_arch = false := by
  rw [is_included_bool, h]
  simp

-- MARK: claim theorems for the filter

/-- C4: the filter decision is invariant under the declaration order of
the rules: permuting the comma separated rule tokens yields a filter
with identical `is_included` results on all inputs; in particular for
the rule strings `foo/*,!foo/bar` and `!foo/bar,foo/*` the name
`foo/bar` is excluded and `foo/baz` is included. -/
theorem C4_rule_order_invariance :
    (∀ toks₁ toks₂ : List Str, toks₁.Perm toks₂ →
      ∀ (repo : Str) (is_fork is_arch : Bool),
        (ofTokens toks₁).is_included repo is_fork is_arch
          = (ofTokens toks₂).is_included repo is_fork is_arch)
    ∧ (GhsFilter.new (("foo/*,!foo/bar").toList)).is_included
        (("foo/bar").toList) false false = false
    ∧ (GhsFilter.new (("foo/*,!foo/bar").toList)).is_included
        (("foo/baz").toList) false false = true
    ∧ (GhsFilter.new (("!foo/bar,foo/*").toList)).is_included
        (("foo/bar").toList) false false = false
    ∧ (GhsFilter.new (("!foo/bar,foo/*").toList)).is_included
        (("foo/baz").toList) false false = true :=
  ⟨fun _ _ h => ofTokens_of_perm h, by decide, by decide, by decide, by decide⟩

/-- C4 witness: the permutation half applied to the two-token rule
lists `[foo/*, !foo/bar]` and `[!foo/bar, foo/*]` at `foo/bar`. -/
theorem C4_rule_order_invariance_witness :
    (ofTokens [("foo/*").toList, ("!foo/bar").toList]).is_included
        (("foo/bar").toList) false false
      = (ofTokens [("!foo/bar").toList, ("foo/*").toList]).is_included
        (("foo/bar").toList) false false :=
  C4_rule_order_invariance.1 _ _
    (List.Perm.swap (("!foo/bar").toList) (("foo/*").toList) []) (("foo/bar").toList) false false

/-- C5: when the repository is a fork (resp. archived) and the matching
exclusion flag is set, wildcard rules are skipped entirely, so the
decision reduces to exact-name membership: the name is included exactly
when it is well formed, not an exact exclude rule, and an exact include
rule.  In particular with rules `!fork,abc/*,abc/xyz` the fork
`abc/123` is excluded (its wildcard is suppressed) while the fork
`abc/xyz` is included (exact match always applies). -/
theorem C5_fork_archived_wildcard_suppression :
    (∀ (f : GhsFilter) (repo : Str) (is_fork is_arch : Bool),
      ((f.exclude_forks && is_fork) || (f.exclude_archs && is_arch)) = true →
      f.is_included repo is_fork is_arch
        = (!malformedName (toLowerL (trimL repo))
            && !decide ((toLowerL (trimL repo)) ∈ f.exclude_repos)
            && decide ((toLowerL (trimL repo)) ∈ f.include_repos)))
    ∧ (GhsFilter.new (("!fork,abc/*,abc/xyz").toList)).is_included
        (("abc/123").toList) true false = false
    ∧ (GhsFilter.new (("!fork,abc/*,abc/xyz").toList)).is_included
        (("abc/xyz").toList) true false = true := by
  refine ⟨?_, by decide, by decide⟩
  intro f repo is_fork is_arch h
  rw [is_included_bool, h]
  simp only [scanRules_suppress]
  rcases Bool.or_eq_true_iff.mp h with hh | hh <;> simp [hh]

/-- C5 witness: the general half applied to the filter built from
`!fork,abc/*,abc/xyz` at the forked repository `abc/123`. -/
theorem C5_fork_archived_wildcard_suppression_witness :
    (GhsFilter.new (("!fork,abc/*,abc/xyz").toList)).is_included
        (("abc/123").toList) true false
      = (!malformedName (toLowerL (trimL (("abc/123").toList)))
          && !decide ((toLowerL (trimL (("abc/123").toList)))
              ∈ (GhsFilter.new (("!fork,abc/*,abc/xyz").toList)).exclude_repos)
          && decide ((toLowerL (trimL (("abc/123").toList)))
              ∈ (GhsFilter.new (("!fork,abc/*,abc/xyz").toList)).include_repos)) :=
  C5_fork_archived_wildcard_suppression.1
    (GhsFilter.new (("!fork,abc/*,abc/xyz").toList)) (("abc/123").toList) true false (by decide)

/-- C6 counterexample: the claim states that with rules
`!foo/*,foo/bar` the exact include rule wins and
`is_included("foo/bar", false, false)` is true; on the code the exclude
scan runs first and its wildcard `foo/*` fires before the include exact
rule is ever consulted, so the result is false. -/
theorem C6_exact_include_loses_counterexample :
    (GhsFilter.new (("!foo/*,foo/bar").toList)).is_included
      (("foo/bar").toList) false false = false := by decide

/-- C6 amended: exclude rules are evaluated before include rules, and
within a scan an exact-name match returns its polarity immediately; so
an exact-name exclude rule equal to the candidate forces exclusion even
when an include wildcard matches (`foo/*,!foo/bar` excludes `foo/bar`),
while an exact include rule does not override a matching exclude
wildcard (`!foo/*,foo/bar` also excludes `foo/bar`). -/
theorem C6_exclude_exact_precedence :
    (∀ (f : GhsFilter) (repo : Str) (is_fork is_arch : Bool),
      (toLowerL (trimL repo)) ∈ f.exclude_repos →
      f.is_included repo is_fork is_arch = false)
    ∧ (GhsFilter.new (("foo/*,!foo/bar").toList)).is_included
        (("foo/bar").toList) false false = false
    ∧ (GhsFilter.new (("!foo/*,foo/bar").toList)).is_included
        (("foo/bar").toList) false false = false := by
  refine ⟨?_, by decide, by decide⟩
  intro f repo is_fork is_arch h
  rw [is_included_bool, scanRules_of_mem h]
  simp

/-- C6 witness: the general half applied to the filter built from
`foo/*,!foo/bar` at `foo/bar`. -/
theorem C6_exclude_exact_precedence_witness :
    (GhsFilter.new (("foo/*,!foo/bar").toList)).is_included
      (("foo/bar").toList) false false = false :=
  C6_exclude_exact_precedence.1
    (GhsFilter.new (("foo/*,!foo/bar").toList)) (("foo/bar").toList) false false (by decide)

/-- C10: for every filter and every fork/archived flag combination,
`is_included` returns false whenever the candidate name, after trimming
and lower-casing, is empty, has a `/` count different from one, starts
with `/`, or ends with `/`. -/
theorem C10_malformed_names_excluded (f : GhsFilter) (repo : Str)
    (is_fork is_arch : Bool)
    (h : malformedName (toLowerL (trimL repo)) = true) :
    f.is_included repo is_fork is_arch = false :=
  is_included_eq_of_malformed f repo is_fork is_arch h

/-- C10 witness: the include-everything filter still rejects the
slash-less name `foo` and the name `foo/`. -/
theorem C10_malformed_names_excluded_witness :
    (GhsFilter.new (("*").toList)).is_included (("foo").toList) false false = false
    ∧ (GhsFilter.new (("*").toList)).is_included (("foo/").toList) true true = false :=
  ⟨C10_malformed_names_excluded _ _ _ _ (by decide),
   C10_malformed_names_excluded _ _ _ _ (by decide)⟩

-- MARK: Store - repo_stats upserts (src/db_client.rs)

/-- `gh_client::Repo` (the fields the store consumes). -/
structure Repo where
  id : Nat
  full_name : Str
  description : Option Str
  stargazers_count : Nat
  forks_count : Nat
  watchers_count : Nat
  open_issues_count : Nat
  fork : Bool
  archived : Bool
deriving DecidableEq

/-- One `repo_stats` row; every counter column is
`INTEGER NOT NULL DEFAULT 0` in the schema. -/
structure StatRow where
  stars : Nat
  forks : Nat
  watchers : Nat
  issues : Nat
  clones_count : Nat
  clones_uniques : Nat
  views_count : Nat
  views_uniques : Nat
deriving DecidableEq

/-- A row where every column takes its schema default 0. -/
def StatRow.zero : StatRow := ⟨0, 0, 0, 0, 0, 0, 0, 0⟩

/-- The `repo_stats` table, keyed by its primary key (repo_id, date). -/
abbrev StatsDb := List ((Nat × Str) × StatRow)

/-- Row lookup by primary key. -/
def statsGet : StatsDb → (Nat × Str) → Option StatRow
  | [], _ => none
  | (k', r) :: rest, k => if k' = k then some r else statsGet rest k

/-- `INSERT ... ON CONFLICT(repo_id, date) DO UPDATE`: a fresh key
inserts the incoming row (absent columns at their defaults); an
existing key is merged by the statement's DO UPDATE clause. -/
def upsertWith (merge : StatRow → StatRow → StatRow) :
    StatsDb → (Nat × Str) → StatRow → StatsDb
  | [], k, incoming => [(k, incoming)]
  | (k', r) :: rest, k, incoming =>
    if k' = k then (k', merge r incoming) :: rest
    else (k', r) :: upsertWith merge rest k incoming

/-- `insert_stats` DO UPDATE clause: each of stars/forks/watchers/issues
becomes `MAX(t.col, excluded.col)`; the traffic columns are untouched. -/
def mergeStats (t e : StatRow) : StatRow :=
  { t with stars := max t.stars e.stars, forks := max t.forks e.forks,
           watchers := max t.watchers e.watchers, issues := max t.issues e.issues }

/-- `insert_views` DO UPDATE clause. -/
def mergeViews (t e : StatRow) : StatRow :=
  { t with views_count := max t.views_count e.views_count,
           views_uniques := max t.views_uniques e.views_uniques }

/-- `insert_clones` DO UPDATE clause. -/
def mergeClones (t e : StatRow) : StatRow :=
  { t with clones_count := max t.clones_count e.clones_count,
           clones_uniques := max t.clones_uniques e.clones_uniques }

/-- The VALUES row of `insert_stats`. -/
def statsRowOf (repo : Repo) : StatRow :=
  { StatRow.zero with
    stars := repo.stargazers_count, forks := repo.forks_count,
    watchers := repo.watchers_count, issues := repo.open_issues_count }

/-- `DbClient::insert_stats` restricted to the `repo_stats` table. -/
def insert_stats (db : StatsDb) (repo : Repo) (date : Str) : StatsDb :=
  upsertWith mergeStats db (repo.id, date) (statsRowOf repo)

/-- `gh_client::TrafficDaily`. -/
structure TrafficDaily where
  timestamp : Str
  uniques : Nat
  count : Nat
deriving DecidableEq

/-- `gh_client::RepoViews`. -/
structure RepoViews where
  uniques : Nat
  count : Nat
  views : List TrafficDaily
deriving DecidableEq

/-- `gh_client::RepoClones`. -/
structure RepoClones where
  uniques : Nat
  count : Nat
  clones : List TrafficDaily
deriving DecidableEq

/-- The VALUES row of one `insert_views` statement. -/
def viewsRowOf (doc : TrafficDaily) : StatRow :=
  { StatRow.zero with views_count := doc.count, views_uniques := doc.uniques }

/-- The VALUES row of one `insert_clones` statement. -/
def clonesRowOf (doc : TrafficDaily) : StatRow :=
  { StatRow.zero with clones_count := doc.count, clones_uniques := doc.uniques }

/-- One iteration of the `insert_views` loop (one daily document). -/
def insert_views_one (db : StatsDb) (repoId : Nat) (doc : TrafficDaily) : StatsDb :=
  upsertWith mergeViews db (repoId, doc.timestamp) (viewsRowOf doc)

/-- `DbClient::insert_views`: one upsert per daily document. -/
def insert_views (db : StatsDb) (repo : Repo) (views : RepoViews) : StatsDb :=
  views.views.foldl (fun db doc => insert_views_one db repo.id doc) db

/-- One iteration of the `insert_clones` loop. -/
def insert_clones_one (db : StatsDb) (repoId : Nat) (doc : TrafficDaily) : StatsDb :=
  upsertWith mergeClones db (repoId, doc.timestamp) (clonesRowOf doc)

/-- `DbClient::insert_clones`: one upsert per daily document. -/
def insert_clones (db : StatsDb) (repo : Repo) (clones : RepoClones) : StatsDb :=
  clones.clones.foldl (fun db doc => insert_clones_one db repo.id doc) db

theorem statsGet_upsertWith (merge : StatRow → StatRow → StatRow)
    (db : StatsDb) (k : Nat × Str) (incoming : StatRow) :
    statsGet (upsertWith merge db k incoming) k
      = some (match statsGet db k with
              | none => incoming
              | some r => merge r incoming) := by
  induction db with
  | nil => simp [upsertWith, statsGet]
  | cons e rest ih =>
    obtain ⟨k', r⟩ := e
    by_cases h : k' = k <;> simp [upsertWith, statsGet, h, ih]

theorem statsGet_upsertWith_ne (merge : StatRow → StatRow → StatRow)
    (db : StatsDb) (k k' : Nat × Str) (incoming : StatRow) (h : k' ≠ k) :
    statsGet (upsertWith merge db k incoming) k' = statsGet db k' := by
  induction db with
  | nil =>
    have h' : ¬k = k' := fun hh => h (Eq.symm hh)
    simp [upsertWith, statsGet, h']
  | cons e rest ih =>
    obtain ⟨k'', r⟩ := e
    by_cases h1 : k'' = k <;> by_cases h2 : k'' = k' <;>
      simp_all [upsertWith, statsGet]

/-- Re-upserting the same key is absorbed whenever the merge clause
absorbs the second incoming row. -/
theorem upsertWith_absorb (merge : StatRow → StatRow → StatRow)
    (i₁ i₂ : StatRow) (h1 : merge i₁ i₂ = i₁)
    (h2 : ∀ r, merge (merge r i₁) i₂ = merge r i₁) :
    ∀ (db : StatsDb) (k : Nat × Str),
      upsertWith merge (upsertWith merge db k i₁) k i₂ = upsertWith merge db k i₁ := by
  intro db k
  induction db with
  | nil => simp [upsertWith, h1]
  | cons e rest ih =>
    obtain ⟨k', r⟩ := e
    by_cases h : k' = k <;> simp [upsertWith, h, h2, ih]

theorem mergeStats_idem (i : StatRow) : mergeStats i i = i := by
  simp [mergeStats]

theorem mergeStats_absorb (r i : StatRow) :
    mergeStats (mergeStats r i) i = mergeStats r i := by
  simp [mergeStats, Nat.max_assoc]

theorem mergeStats_mono (h l : StatRow)
    (h1 : l.stars ≤ h.stars) (h2 : l.forks ≤ h.forks)
    (h3 : l.watchers ≤ h.watchers) (h4 : l.issues ≤ h.issues) :
    mergeStats h l = h := by
  simp [mergeStats, Nat.max_eq_left h1, Nat.max_eq_left h2,
    Nat.max_eq_left h3, Nat.max_eq_left h4]

theorem mergeStats_mono_absorb (r h l : StatRow)
    (h1 : l.stars ≤ h.stars) (h2 : l.forks ≤ h.forks)
    (h3 : l.watchers ≤ h.watchers) (h4 : l.issues ≤ h.issues) :
    mergeStats (mergeStats r h) l = mergeStats r h := by
  have e1 : max (max r.stars h.stars) l.stars = max r.stars h.stars :=
    Nat.max_eq_left (le_trans h1 (Nat.le_max_right _ _))
  have e2 : max (max r.forks h.forks) l.forks = max r.forks h.forks :=
    Nat.max_eq_left (le_trans h2 (Nat.le_max_right _ _))
  have e3 : max (max r.watchers h.watchers) l.watchers = max r.watchers h.watchers :=
    Nat.max_eq_left (le_trans h3 (Nat.le_max_right _ _))
  have e4 : max (max r.issues h.issues) l.issues = max r.issues h.issues :=
    Nat.max_eq_left (le_trans h4 (Nat.le_max_right _ _))
  simp [mergeStats, e1, e2, e3, e4]

theorem mergeViews_idem (i : StatRow) : mergeViews i i = i := by
  simp [mergeViews]

theorem mergeViews_absorb (r i : StatRow) :
    mergeViews (mergeViews r i) i = mergeViews r i := by
  simp [mergeViews, Nat.max_assoc]

theorem mergeClones_idem (i : StatRow) : mergeClones i i = i := by
  simp [mergeClones]

theorem mergeClones_absorb (r i : StatRow) :
    mergeClones (mergeClones r i) i = mergeClones r i := by
  simp [mergeClones, Nat.max_assoc]

/-- C1: the DailyStat upsert is idempotent and monotonic.  A fresh
(repo id, date) key inserts the incoming values; a conflict merges each
counter column to `max(existing, incoming)` independently; applying the
same upsert twice (stats, views or clones) equals applying it once; an
upsert whose counters are all lower than an earlier one changes
nothing; and concretely merging stars 10 then 7 stores 10. -/
theorem C1_daily_upsert_idempotent_monotonic :
    (∀ (db : StatsDb) (repo : Repo) (date : Str),
        statsGet db (repo.id, date) = none →
        statsGet (insert_stats db repo date) (repo.id, date) = some (statsRowOf repo))
    ∧ (∀ (db : StatsDb) (repo : Repo) (date : Str) (r : StatRow),
        statsGet db (repo.id, date) = some r →
        statsGet (insert_stats db repo date) (repo.id, date)
          = some (mergeStats r (statsRowOf repo)))
    ∧ (∀ (db : StatsDb) (repo : Repo) (date : Str),
        insert_stats (insert_stats db repo date) repo date = insert_stats db repo date)
    ∧ (∀ (db : StatsDb) (repoId : Nat) (doc : TrafficDaily),
        insert_views_one (insert_views_one db repoId doc) repoId doc
          = insert_views_one db repoId doc)
    ∧ (∀ (db : StatsDb) (repoId : Nat) (doc : TrafficDaily),
        insert_clones_one (insert_clones_one db repoId doc) repoId doc
          = insert_clones_one db repoId doc)
    ∧ (∀ (db : StatsDb) (hi lo : Repo) (date : Str),
        lo.id = hi.id →
        lo.stargazers_count ≤ hi.stargazers_count →
        lo.forks_count ≤ hi.forks_count →
        lo.watchers_count ≤ hi.watchers_count →
        lo.open_issues_count ≤ hi.open_issues_count →
        insert_stats (insert_stats db hi date) lo date = insert_stats db hi date)
    ∧ statsGet
        (insert_stats
          (insert_stats [] ⟨1, ("a/r").toList, none, 10, 0, 0, 0, false, false⟩
            (("2025-01-01T00:00:00Z").toList))
          ⟨1, ("a/r").toList, none, 7, 0, 0, 0, false, false⟩
          (("2025-01-01T00:00:00Z").toList))
        (1, ("2025-01-01T00:00:00Z").toList)
      = some ⟨10, 0, 0, 0, 0, 0, 0, 0⟩ := by
  refine ⟨?_, ?_, ?_, ?_, ?_, ?_, by decide⟩
  · intro db repo date h
    simp [insert_stats, statsGet_upsertWith, h]
  · intro db repo date r h
    simp [insert_stats, statsGet_upsertWith, h]
  · intro db repo date
    exact upsertWith_absorb mergeStats _ _ (mergeStats_idem _)
      (fun r => mergeStats_absorb r _) db _
  · intro db repoId doc
    exact upsertWith_absorb mergeViews _ _ (mergeViews_idem _)
      (fun r => mergeViews_absorb r _) db _
  · intro db repoId doc
    exact upsertWith_absorb mergeClones _ _ (mergeClones_idem _)
      (fun r => mergeClones_absorb r _) db _
  · intro db hi lo date hid hs hf hw hi2
    show upsertWith mergeStats (insert_stats db hi date) (lo.id, date) (statsRowOf lo)
        = insert_stats db hi date
    rw [hid]
    exact upsertWith_absorb mergeStats _ _
      (mergeStats_mono _ _ hs hf hw hi2)
      (fun r => mergeStats_mono_absorb r _ _ hs hf hw hi2) db _

/-- C1 witness: the fresh-insert half applied to the empty table, plus
the lower-after-higher half applied to two concrete repos with stars
10 then 7. -/
theorem C1_daily_upsert_idempotent_monotonic_witness :
    statsGet
        (insert_stats [] ⟨1, ("a/r").toList, none, 10, 2, 3, 4, false, false⟩
          (("2025-01-01T00:00:00Z").toList))
        ((1 : Nat), ("2025-01-01T00:00:00Z").toList)
      = some (statsRowOf ⟨1, ("a/r").toList, none, 10, 2, 3, 4, false, false⟩)
    ∧ insert_stats
        (insert_stats [] ⟨1, ("a/r").toList, none, 10, 2, 3, 4, false, false⟩
          (("2025-01-01T00:00:00Z").toList))
        ⟨1, ("a/r").toList, none, 7, 1, 2, 3, false, false⟩
        (("2025-01-01T00:00:00Z").toList)
      = insert_stats [] ⟨1, ("a/r").toList, none, 10, 2, 3, 4, false, false⟩
          (("2025-01-01T00:00:00Z").toList) :=
  ⟨C1_daily_upsert_idempotent_monotonic.1 [] _ _ (by decide),
   C1_daily_upsert_idempotent_monotonic.2.2.2.2.2.1 []
     ⟨1, ("a/r").toList, none, 10, 2, 3, 4, false, false⟩
     ⟨1, ("a/r").toList, none, 7, 1, 2, 3, false, false⟩
     (("2025-01-01T00:00:00Z").toList)
     (by decide) (by decide) (by decide) (by decide) (by decide)⟩

-- MARK: Store - delta recomputation (DbClient::update_deltas)

/-- `MAX(0, cur - COALESCE(prev, 0))` over SQLite INTEGER values
(`prev` already defaulted via `getD 0` by the caller). -/
def deltaOf (cur prev : Nat) : Int := max 0 ((cur : Int) - (prev : Int))

/-- One `repo_referrers` row. -/
structure RefRow where
  repo_id : Nat
  date : Str
  referrer : Str
  count : Nat
  uniques : Nat
  count_delta : Int
  uniques_delta : Int
deriving DecidableEq

/-- One `repo_popular_paths` row. -/
structure PathRow where
  repo_id : Nat
  date : Str
  path : Str
  title : Str
  count : Nat
  uniques : Nat
  count_delta : Int
  uniques_delta : Int
deriving DecidableEq

/-- Max-by-date accumulation step used to read the LAG window. -/
def lagMaxStep (best : Option RefRow) (x : RefRow) : Option RefRow :=
  match best with
  | none => some x
  | some b => if ltL b.date x.date then some x else best

/-- `LAG(...) OVER (PARTITION BY repo_id, referrer ORDER BY date)` read
at one row: the row of the same partition with the greatest date
strictly below the current row's date; `none` when no predecessor
exists. -/
def lagRowRefs (rows : List RefRow) (r : RefRow) : Option RefRow :=
  (rows.filter (fun x => x.repo_id = r.repo_id && x.referrer = r.referrer
      && ltL x.date r.date)).foldl lagMaxStep none

/-- The `UPDATE repo_referrers SET uniques_delta = MAX(0, ...),
count_delta = MAX(0, ...)` statement of `update_deltas`. -/
def lagUpdateRefs (rows : List RefRow) : List RefRow :=
  rows.map (fun r =>
    { r with
      count_delta := deltaOf r.count (((lagRowRefs rows r).map RefRow.count).getD 0),
      uniques_delta := deltaOf r.uniques (((lagRowRefs rows r).map RefRow.uniques).getD 0) })

/-- Max-by-date accumulation step for the popular-path table. -/
def lagMaxStepP (best : Option PathRow) (x : PathRow) : Option PathRow :=
  match best with
  | none => some x
  | some b => if ltL b.date x.date then some x else best

/-- LAG window read for the `repo_popular_paths` partition
(repo_id, path). -/
def lagRowPaths (rows : List PathRow) (r : PathRow) : Option PathRow :=
  (rows.filter (fun x => x.repo_id = r.repo_id && x.path = r.path
      && ltL x.date r.date)).foldl lagMaxStepP none

/-- The `UPDATE repo_popular_paths SET ...` statement of
`update_deltas`. -/
def lagUpdatePaths (rows : List PathRow) : List PathRow :=
  rows.map (fun r =>
    { r with
      count_delta := deltaOf r.count (((lagRowPaths rows r).map PathRow.count).getD 0),
      uniques_delta := deltaOf r.uniques (((lagRowPaths rows r).map PathRow.uniques).getD 0) })

theorem ltL_irrefl (s : Str) : ltL s s = false := by
  induction s with
  | nil => rfl
  | cons c cs ih => simp [ltL, ih]

theorem ltL_asymm : ∀ {a b : Str}, ltL a b = true → ltL b a = false
  | [], [], h => by simp [ltL] at h
  | [], _ :: _, h => by simp [ltL]
  | _ :: _, [], h => by simp [ltL] at h
  | a :: as, b :: bs, h => by
    by_cases hab : a = b
    · subst hab
      simp only [ltL, if_pos rfl] at h ⊢
      exact ltL_asymm h
    · have hba : ¬b = a := fun e => hab (Eq.symm e)
      simp only [ltL, if_neg hab] at h
      simp only [ltL, if_neg hba, decide_eq_true_eq] at h ⊢
      simp only [decide_eq_false_iff_not]
      omega

theorem foldl_lagMaxStep_sorted :
    ∀ (l : List RefRow) (acc : Option RefRow),
      l.Pairwise (fun a b => ltL a.date b.date = true) →
      (∀ x ∈ l, ∀ b, acc = some b → ltL b.date x.date = true) →
      l.foldl lagMaxStep acc = l.getLast?.or acc := by
  intro l
  induction l with
  | nil => intro acc _ _; simp
  | cons x xs ih =>
    intro acc hp hacc
    obtain ⟨hhead, htail⟩ := List.pairwise_cons.mp hp
    have hx : lagMaxStep acc x = some x := by
      cases acc with
      | none => rfl
      | some b => simp [lagMaxStep, hacc x (by simp) b rfl]
    rw [List.foldl_cons, hx,
      ih (some x) htail (fun y hy b hb => by cases hb; exact hhead y hy)]
    cases xs with
    | nil => simp
    | cons y ys =>
      rw [List.getLast?_cons_cons,
        List.getLast?_eq_getLast (y :: ys) (List.cons_ne_nil y ys), Option.or_some,
        Option.or_some]

/-- On a single sorted partition, the LAG row of the `i`-th entry is the
`(i-1)`-st entry (none at `i = 0`). -/
theorem lagRowRefs_sorted (rows : List RefRow) (R : Nat) (K : Str)
    (hk : ∀ x ∈ rows, x.repo_id = R ∧ x.referrer = K)
    (hs : rows.Pairwise (fun a b => ltL a.date b.date = true))
    (i : Nat) (h : i < rows.length) :
    lagRowRefs rows (rows.get ⟨i, h⟩) = (rows.take i).getLast? := by
  have hsg := List.pairwise_iff_getElem.mp hs
  have hkt : (rows.get ⟨i, h⟩).repo_id = R ∧ (rows.get ⟨i, h⟩).referrer = K :=
    hk _ (List.get_mem rows i h)
  have hlt : ∀ (j : Nat) (hj : j < rows.length), j < i →
      ltL (rows[j]).date (rows.get ⟨i, h⟩).date = true := by
    intro j hj hji
    simpa [List.get_eq_getElem] using hsg j i hj h hji
  have hge : ∀ (j : Nat) (hj : j < rows.length), i ≤ j →
      ltL (rows[j]).date (rows.get ⟨i, h⟩).date = false := by
    intro j hj hij
    rcases Nat.eq_or_lt_of_le hij with he | hl
    · subst he
      simpa [List.get_eq_getElem] using ltL_irrefl (rows[i]).date
    · have h1 := hsg i j h hj hl
      have h2 : ltL (rows.get ⟨i, h⟩).date (rows[j]).date = true := by
        simpa [List.get_eq_getElem] using h1
      exact ltL_asymm h2
  generalize hget : rows.get ⟨i, h⟩ = t at hkt hlt hge ⊢
  unfold lagRowRefs
  have hfilter : rows.filter (fun x =>
      x.repo_id = t.repo_id && x.referrer = t.referrer && ltL x.date t.date)
        = rows.take i := by
    conv_lhs => rw [← List.take_append_drop i rows]
    rw [List.filter_append]
    have h1 : (rows.take i).filter (fun x =>
        x.repo_id = t.repo_id && x.referrer = t.referrer && ltL x.date t.date)
          = rows.take i := by
      apply List.filter_eq_self.mpr
      intro a ha
      obtain ⟨j, hj, hja⟩ := List.mem_iff_getElem.mp ha
      have hjlen : j < i := by
        have h2 := hj; rw [List.length_take] at h2; omega
      have hjrows : j < rows.length := by omega
      have haj : a = rows[j] := by
        rw [← hja]; exact List.getElem_take rows
      have hmem : a ∈ rows := by rw [haj]; exact List.getElem_mem hjrows
      have hka := hk a hmem
      rw [haj] at hka
      rw [haj]
      simp [hka.1, hkt.1, hka.2, hkt.2, hlt j hjrows hjlen]
    have h2 : (rows.drop i).filter (fun x =>
        x.repo_id = t.repo_id && x.referrer = t.referrer && ltL x.date t.date)
          = [] := by
      apply List.filter_eq_nil_iff.mpr
      intro a ha
      obtain ⟨m, hm, hma⟩ := List.mem_iff_getElem.mp ha
      have hmlen : i + m < rows.length := by
        have h3 := hm; rw [List.length_drop] at h3; omega
      have haj : a = rows[i + m] := by
        rw [← hma]; exact List.getElem_drop rows
      rw [haj]
      simp [hge (i + m) hmlen (by omega)]
    rw [h1, h2, List.append_nil]
  rw [hfilter,
    foldl_lagMaxStep_sorted (rows.take i) none
      (List.Pairwise.sublist (List.take_sublist i rows) hs)
      (fun x _ b hb => by cases hb)]
  simp

theorem getLast?_take_pos {α : Type} (l : List α) (i : Nat) (h0 : 0 < i)
    (h : i ≤ l.length) :
    (l.take i).getLast? = l[i - 1]? := by
  rw [List.getLast?_eq_getElem?, List.length_take]
  have hmin : min i l.length = i := min_eq_left h
  rw [hmin, List.getElem?_take, if_pos (Nat.sub_lt h0 Nat.one_pos)]

theorem foldl_lagMaxStepP_sorted :
    ∀ (l : List PathRow) (acc : Option PathRow),
      l.Pairwise (fun a b => ltL a.date b.date = true) →
      (∀ x ∈ l, ∀ b, acc = some b → ltL b.date x.date = true) →
      l.foldl lagMaxStepP acc = l.getLast?.or acc := by
  intro l
  induction l with
  | nil => intro acc _ _; simp
  | cons x xs ih =>
    intro acc hp hacc
    obtain ⟨hhead, htail⟩ := List.pairwise_cons.mp hp
    have hx : lagMaxStepP acc x = some x := by
      cases acc with
      | none => rfl
      | some b => simp [lagMaxStepP, hacc x (by simp) b rfl]
    rw [List.foldl_cons, hx,
      ih (some x) htail (fun y hy b hb => by cases hb; exact hhead y hy)]
    cases xs with
    | nil => simp
    | cons y ys =>
      rw [List.getLast?_cons_cons,
        List.getLast?_eq_getLast (y :: ys) (List.cons_ne_nil y ys), Option.or_some,
        Option.or_some]

/-- On a single sorted (repo_id, path) partition, the LAG row of the
`i`-th entry is the `(i-1)`-st entry (none at `i = 0`). -/
theorem lagRowPaths_sorted (rows : List PathRow) (R : Nat) (K : Str)
    (hk : ∀ x ∈ rows, x.repo_id = R ∧ x.path = K)
    (hs : rows.Pairwise (fun a b => ltL a.date b.date = true))
    (i : Nat) (h : i < rows.length) :
    lagRowPaths rows (rows.get ⟨i, h⟩) = (rows.take i).getLast? := by
  have hsg := List.pairwise_iff_getElem.mp hs
  have hkt : (rows.get ⟨i, h⟩).repo_id = R ∧ (rows.get ⟨i, h⟩).path = K :=
    hk _ (List.get_mem rows i h)
  have hlt : ∀ (j : Nat) (hj : j < rows.length), j < i →
      ltL (rows[j]).date (rows.get ⟨i, h⟩).date = true := by
    intro j hj hji
    simpa [List.get_eq_getElem] using hsg j i hj h hji
  have hge : ∀ (j : Nat) (hj : j < rows.length), i ≤ j →
      ltL (rows[j]).date (rows.get ⟨i, h⟩).date = false := by
    intro j hj hij
    rcases Nat.eq_or_lt_of_le hij with he | hl
    · subst he
      simpa [List.get_eq_getElem] using ltL_irrefl (rows[i]).date
    · have h1 := hsg i j h hj hl
      have h2 : ltL (rows.get ⟨i, h⟩).date (rows[j]).date = true := by
        simpa [List.get_eq_getElem] using h1
      exact ltL_asymm h2
  generalize hget : rows.get ⟨i, h⟩ = t at hkt hlt hge ⊢
  unfold lagRowPaths
  have hfilter : rows.filter (fun x =>
      x.repo_id = t.repo_id && x.path = t.path && ltL x.date t.date)
        = rows.take i := by
    conv_lhs => rw [← List.take_append_drop i rows]
    rw [List.filter_append]
    have h1 : (rows.take i).filter (fun x =>
        x.repo_id = t.repo_id && x.path = t.path && ltL x.date t.date)
          = rows.take i := by
      apply List.filter_eq_self.mpr
      intro a ha
      obtain ⟨j, hj, hja⟩ := List.mem_iff_getElem.mp ha
      have hjlen : j < i := by
        have h2 := hj; rw [List.length_take] at h2; omega
      have hjrows : j < rows.length := by omega
      have haj : a = rows[j] := by
        rw [← hja]; exact List.getElem_take rows
      have hmem : a ∈ rows := by rw [haj]; exact List.getElem_mem hjrows
      have hka := hk a hmem
      rw [haj] at hka
      rw [haj]
      simp [hka.1, hkt.1, hka.2, hkt.2, hlt j hjrows hjlen]
    have h2 : (rows.drop i).filter (fun x =>
        x.repo_id = t.repo_id && x.path = t.path && ltL x.date t.date)
          = [] := by
      apply List.filter_eq_nil_iff.mpr
      intro a ha
      obtain ⟨m, hm, hma⟩ := List.mem_iff_getElem.mp ha
      have hmlen : i + m < rows.length := by
        have h3 := hm; rw [List.length_drop] at h3; omega
      have haj : a = rows[i + m] := by
        rw [← hma]; exact List.getElem_drop rows
      rw [haj]
      simp [hge (i + m) hmlen (by omega)]
    rw [h1, h2, List.append_nil]
  rw [hfilter,
    foldl_lagMaxStepP_sorted (rows.take i) none
      (List.Pairwise.sublist (List.take_sublist i rows) hs)
      (fun x _ b hb => by cases hb)]
  simp

/-- The raw series used in the C3 delta example: counts and uniques
`[50, 80, 60, 90]` for one (repo, referrer) key over four days. -/
def C3exampleRows : List RefRow :=
  [⟨1, ("2025-01-01T00:00:00Z").toList, ("google.com").toList, 50, 50, 0, 0⟩,
   ⟨1, ("2025-01-02T00:00:00Z").toList, ("google.com").toList, 80, 80, 0, 0⟩,
   ⟨1, ("2025-01-03T00:00:00Z").toList, ("google.com").toList, 60, 60, 0, 0⟩,
   ⟨1, ("2025-01-04T00:00:00Z").toList, ("google.com").toList, 90, 90, 0, 0⟩]

/-- The raw popular-path series of the C3 example: the same
`[50, 80, 60, 90]` counts and uniques for one (repo, path) key. -/
def C3examplePaths : List PathRow :=
  [⟨1, ("2025-01-01T00:00:00Z").toList, ("/readme").toList, ("t").toList, 50, 50, 0, 0⟩,
   ⟨1, ("2025-01-02T00:00:00Z").toList, ("/readme").toList, ("t").toList, 80, 80, 0, 0⟩,
   ⟨1, ("2025-01-03T00:00:00Z").toList, ("/readme").toList, ("t").toList, 60, 60, 0, 0⟩,
   ⟨1, ("2025-01-04T00:00:00Z").toList, ("/readme").toList, ("t").toList, 90, 90, 0, 0⟩]

/-- C3: delta recomputation, for referrers and popular paths
independently.  For a (repository, key) series of raw snapshots ordered
by date, the recomputed row `i` keeps its raw values and stores
`count_delta = max(0, count[i] - count[i-1])` and
`uniques_delta = max(0, uniques[i] - uniques[i-1])`, a missing
predecessor counting as zero; every stored delta of either table is
non-negative; and the raw series `[50, 80, 60, 90]` yields the delta
series `[50, 30, 0, 30]` in both tables. -/
theorem C3_delta_recomputation :
    (∀ (rows : List RefRow) (R : Nat) (K : Str),
      (∀ x ∈ rows, x.repo_id = R ∧ x.referrer = K) →
      rows.Pairwise (fun a b => ltL a.date b.date = true) →
      ∀ (i : Nat) (h : i < rows.length),
        (lagUpdateRefs rows)[i]?
          = some { rows.get ⟨i, h⟩ with
              count_delta := max 0 (((rows.get ⟨i, h⟩).count : Int)
                - (if i = 0 then 0
                   else ((((rows[i - 1]?).map RefRow.count).getD 0 : Nat) : Int))),
              uniques_delta := max 0 (((rows.get ⟨i, h⟩).uniques : Int)
                - (if i = 0 then 0
                   else ((((rows[i - 1]?).map RefRow.uniques).getD 0 : Nat) : Int))) })
    ∧ (∀ (rows : List RefRow) (x : RefRow), x ∈ lagUpdateRefs rows →
        0 ≤ x.count_delta ∧ 0 ≤ x.uniques_delta)
    ∧ (lagUpdateRefs C3exampleRows).map RefRow.count_delta = [50, 30, 0, 30]
    ∧ (lagUpdateRefs C3exampleRows).map RefRow.uniques_delta = [50, 30, 0, 30]
    ∧ (∀ (rows : List PathRow) (R : Nat) (K : Str),
      (∀ x ∈ rows, x.repo_id = R ∧ x.path = K) →
      rows.Pairwise (fun a b => ltL a.date b.date = true) →
      ∀ (i : Nat) (h : i < rows.length),
        (lagUpdatePaths rows)[i]?
          = some { rows.get ⟨i, h⟩ with
              count_delta := max 0 (((rows.get ⟨i, h⟩).count : Int)
                - (if i = 0 then 0
                   else ((((rows[i - 1]?).map PathRow.count).getD 0 : Nat) : Int))),
              uniques_delta := max 0 (((rows.get ⟨i, h⟩).uniques : Int)
                - (if i = 0 then 0
                   else ((((rows[i - 1]?).map PathRow.uniques).getD 0 : Nat) : Int))) })
    ∧ (∀ (rows : List PathRow) (x : PathRow), x ∈ lagUpdatePaths rows →
        0 ≤ x.count_delta ∧ 0 ≤ x.uniques_delta)
    ∧ (lagUpdatePaths C3examplePaths).map PathRow.count_delta = [50, 30, 0, 30]
    ∧ (lagUpdatePaths C3examplePaths).map PathRow.uniques_delta = [50, 30, 0, 30] := by
  refine ⟨?_, ?_, by decide, by decide, ?_, ?_, by decide, by decide⟩
  · intro rows R K hk hs i h
    have hmap : (lagUpdateRefs rows)[i]?
        = some ({ rows.get ⟨i, h⟩ with
            count_delta := deltaOf (rows.get ⟨i, h⟩).count
              (((lagRowRefs rows (rows.get ⟨i, h⟩)).map RefRow.count).getD 0),
            uniques_delta := deltaOf (rows.get ⟨i, h⟩).uniques
              (((lagRowRefs rows (rows.get ⟨i, h⟩)).map RefRow.uniques).getD 0) }) := by
      unfold lagUpdateRefs
      rw [List.getElem?_map, List.getElem?_eq_getElem h]
      simp [List.get_eq_getElem]
    rw [hmap, lagRowRefs_sorted rows R K hk hs i h]
    rcases Nat.eq_zero_or_pos i with h0 | h0
    · subst h0
      simp [deltaOf]
    · rw [getLast?_take_pos rows i h0 (le_of_lt h),
        List.getElem?_eq_getElem (by omega : i - 1 < rows.length)]
      simp [deltaOf, if_neg (Nat.pos_iff_ne_zero.mp h0)]
  · intro rows x hx
    obtain ⟨r, _, hr⟩ := List.mem_map.mp hx
    rw [← hr]
    exact ⟨le_max_left _ _, le_max_left _ _⟩
  · intro rows R K hk hs i h
    have hmap : (lagUpdatePaths rows)[i]?
        = some ({ rows.get ⟨i, h⟩ with
            count_delta := deltaOf (rows.get ⟨i, h⟩).count
              (((lagRowPaths rows (rows.get ⟨i, h⟩)).map PathRow.count).getD 0),
            uniques_delta := deltaOf (rows.get ⟨i, h⟩).uniques
              (((lagRowPaths rows (rows.get ⟨i, h⟩)).map PathRow.uniques).getD 0) }) := by
      unfold lagUpdatePaths
      rw [List.getElem?_map, List.getElem?_eq_getElem h]
      simp [List.get_eq_getElem]
    rw [hmap, lagRowPaths_sorted rows R K hk hs i h]
    rcases Nat.eq_zero_or_pos i with h0 | h0
    · subst h0
      simp [deltaOf]
    · rw [getLast?_take_pos rows i h0 (le_of_lt h),
        List.getElem?_eq_getElem (by omega : i - 1 < rows.length)]
      simp [deltaOf, if_neg (Nat.pos_iff_ne_zero.mp h0)]
  · intro rows x hx
    obtain ⟨r, _, hr⟩ := List.mem_map.mp hx
    rw [← hr]
    exact ⟨le_max_left _ _, le_max_left _ _⟩

/-- C3 witness: the indexed characterization applied to the concrete
example series at row 2 (the day the remote counter dropped from 80 to
60: the stored delta is `max(0, 60 - 80) = 0`), once per table. -/
theorem C3_delta_recomputation_witness :
    (lagUpdateRefs C3exampleRows)[2]?
      = some { C3exampleRows.get ⟨2, by decide⟩ with
          count_delta := max 0 (((C3exampleRows.get ⟨2, by decide⟩).count : Int)
            - (if 2 = 0 then 0
               else ((((C3exampleRows[2 - 1]?).map RefRow.count).getD 0 : Nat) : Int))),
          uniques_delta := max 0 (((C3exampleRows.get ⟨2, by decide⟩).uniques : Int)
            - (if 2 = 0 then 0
               else ((((C3exampleRows[2 - 1]?).map RefRow.uniques).getD 0 : Nat) : Int))) }
    ∧ (lagUpdatePaths C3examplePaths)[2]?
      = some { C3examplePaths.get ⟨2, by decide⟩ with
          count_delta := max 0 (((C3examplePaths.get ⟨2, by decide⟩).count : Int)
            - (if 2 = 0 then 0
               else ((((C3examplePaths[2 - 1]?).map PathRow.count).getD 0 : Nat) : Int))),
          uniques_delta := max 0 (((C3examplePaths.get ⟨2, by decide⟩).uniques : Int)
            - (if 2 = 0 then 0
               else ((((C3examplePaths[2 - 1]?).map PathRow.uniques).getD 0 : Nat) : Int))) } :=
  ⟨C3_delta_recomputation.1 C3exampleRows 1 (("google.com").toList)
    (by decide) (by decide) 2 (by decide),
   C3_delta_recomputation.2.2.2.2.1 C3examplePaths 1 (("/readme").toList)
    (by decide) (by decide) 2 (by decide)⟩

-- MARK: Store - star series read path (DbClient::get_stars)

/-- `db_client::RepoStars`. -/
structure RepoStars where
  date : Str
  stars : Int
deriving DecidableEq

/-- The gap-restoring loop of `get_stars` from index 1 on: a zero stars
value is replaced by the accumulator, and the accumulator then tracks
the (possibly replaced) value of the current row. -/
def fillStarsAux (prev : Int) : List RepoStars → List RepoStars
  | [] => []
  | x :: rest =>
    let s := if x.stars = 0 then prev else x.stars
    ⟨x.date, s⟩ :: fillStarsAux s rest

/-- `DbClient::get_stars` after the SQL fetch: index 0 of the loop is
skipped by `continue` - notably without seeding the accumulator, which
stays 0 - then every row with a non-positive stars value is dropped. -/
def getStarsView (items : List RepoStars) : List RepoStars :=
  let filled :=
    match items with
    | [] => []
    | x :: rest => x :: fillStarsAux 0 rest
  filled.filter (fun x => 0 < x.stars)

/-- The fill loop as the C7 claim describes it: the accumulator holds
the previous non-zero value, the first row's value included. -/
def specFillAux (prev : Int) : List RepoStars → List RepoStars
  | [] => []
  | x :: rest =>
    let s := if x.stars = 0 then prev else x.stars
    ⟨x.date, s⟩ :: specFillAux (if s = 0 then prev else s) rest

/-- The C7 claim's reading of the whole read path: forward-fill each
zero after the first row with the previous non-zero value, then drop
the rows still non-positive. -/
def specGapFillDrop (items : List RepoStars) : List RepoStars :=
  let filled :=
    match items with
    | [] => []
    | x :: rest => x :: specFillAux x.stars rest
  filled.filter (fun x => 0 < x.stars)

/-- C7 counterexample: on the stored series `[5, 0, 8]` the code fills
the second row with the accumulator value 0 - not with the previous
non-zero value 5 - and then drops it, rendering `[5, 8]`; the claim's
forward-fill description predicts `[5, 5, 8]`. -/
theorem C7_star_gap_fill_counterexample :
    getStarsView
        [⟨("2025-01-01T00:00:00Z").toList, 5⟩, ⟨("2025-01-02T00:00:00Z").toList, 0⟩,
         ⟨("2025-01-03T00:00:00Z").toList, 8⟩]
      = [⟨("2025-01-01T00:00:00Z").toList, 5⟩, ⟨("2025-01-03T00:00:00Z").toList, 8⟩]
    ∧ specGapFillDrop
        [⟨("2025-01-01T00:00:00Z").toList, 5⟩, ⟨("2025-01-02T00:00:00Z").toList, 0⟩,
         ⟨("2025-01-03T00:00:00Z").toList, 8⟩]
      = [⟨("2025-01-01T00:00:00Z").toList, 5⟩, ⟨("2025-01-02T00:00:00Z").toList, 5⟩,
         ⟨("2025-01-03T00:00:00Z").toList, 8⟩]
    ∧ getStarsView
        [⟨("2025-01-01T00:00:00Z").toList, 5⟩, ⟨("2025-01-02T00:00:00Z").toList, 0⟩,
         ⟨("2025-01-03T00:00:00Z").toList, 8⟩]
      ≠ specGapFillDrop
        [⟨("2025-01-01T00:00:00Z").toList, 5⟩, ⟨("2025-01-02T00:00:00Z").toList, 0⟩,
         ⟨("2025-01-03T00:00:00Z").toList, 8⟩] := by
  refine ⟨by decide, by decide, by decide⟩

theorem fillStarsAux_eq_specFillAux (l : List RepoStars) :
    ∀ p : Int, p ≠ 0 → fillStarsAux p l = specFillAux p l := by
  induction l with
  | nil => intro p _; rfl
  | cons x rest ih =>
    intro p hp
    by_cases hx : x.stars = 0
    · simp [fillStarsAux, specFillAux, hx, hp, ih p hp]
    · simp [fillStarsAux, specFillAux, hx, ih x.stars hx]

theorem fillStars_filter_eq_of_nonpos (l : List RepoStars) :
    ∀ a : Int, a ≤ 0 →
      (fillStarsAux 0 l).filter (fun x => 0 < x.stars)
        = (specFillAux a l).filter (fun x => 0 < x.stars) := by
  induction l with
  | nil => intro a _; rfl
  | cons x rest ih =>
    intro a ha
    by_cases hx : x.stars = 0
    · have hna : ¬(0 < a) := not_lt.mpr ha
      simp [fillStarsAux, specFillAux, hx, List.filter_cons, hna, ite_self, ih a ha]
    · simp [fillStarsAux, specFillAux, hx, List.filter_cons,
        fillStarsAux_eq_specFillAux rest x.stars hx]

/-- C7 amended: on the read path, index 0 of the gap-restoring loop is
skipped without seeding the accumulator, so a zero streak starting at
the second row is filled with 0 (not with the first row's value) and
then dropped; whenever that corner does not matter - fewer than two
rows, a non-positive first value, or a non-zero second value - the
claimed forward-fill-then-drop description holds exactly, and the
claim's series `[0, 5, 0, 8]` is displayed as `[5, 5, 8]` with dates
preserved. -/
theorem C7_star_gap_fill_amended :
    (∀ items : List RepoStars, items.length ≤ 1 →
      getStarsView items = specGapFillDrop items)
    ∧ (∀ (x y : RepoStars) (rest : List RepoStars),
        x.stars ≤ 0 ∨ y.stars ≠ 0 →
        getStarsView (x :: y :: rest) = specGapFillDrop (x :: y :: rest))
    ∧ getStarsView
        [⟨("2025-01-01T00:00:00Z").toList, 0⟩, ⟨("2025-01-02T00:00:00Z").toList, 5⟩,
         ⟨("2025-01-03T00:00:00Z").toList, 0⟩, ⟨("2025-01-04T00:00:00Z").toList, 8⟩]
      = [⟨("2025-01-02T00:00:00Z").toList, 5⟩, ⟨("2025-01-03T00:00:00Z").toList, 5⟩,
         ⟨("2025-01-04T00:00:00Z").toList, 8⟩]
    ∧ specGapFillDrop
        [⟨("2025-01-01T00:00:00Z").toList, 0⟩, ⟨("2025-01-02T00:00:00Z").toList, 5⟩,
         ⟨("2025-01-03T00:00:00Z").toList, 0⟩, ⟨("2025-01-04T00:00:00Z").toList, 8⟩]
      = [⟨("2025-01-02T00:00:00Z").toList, 5⟩, ⟨("2025-01-03T00:00:00Z").toList, 5⟩,
         ⟨("2025-01-04T00:00:00Z").toList, 8⟩] := by
  refine ⟨?_, ?_, by decide, by decide⟩
  · intro items hlen
    match items, hlen with
    | [], _ => rfl
    | [x], _ => rfl
  · intro x y rest h
    unfold getStarsView specGapFillDrop
    rw [List.filter_cons, List.filter_cons]
    rcases h with hx | hy
    · rw [fillStars_filter_eq_of_nonpos (y :: rest) x.stars hx]
    · have hcode : fillStarsAux 0 (y :: rest) = ⟨y.date, y.stars⟩ :: fillStarsAux y.stars rest := by
        simp [fillStarsAux, hy]
      have hspec : specFillAux x.stars (y :: rest)
          = ⟨y.date, y.stars⟩ :: specFillAux y.stars rest := by
        simp [specFillAux, hy]
      rw [hcode, hspec, fillStarsAux_eq_specFillAux rest y.stars hy]

/-- C7 amended witness: the two-row series `[5, 7]` (non-zero second
row) renders identically under the code and the claimed description. -/
theorem C7_star_gap_fill_amended_witness :
    getStarsView [⟨("2025-01-01T00:00:00Z").toList, 5⟩, ⟨("2025-01-02T00:00:00Z").toList, 7⟩]
      = specGapFillDrop
          [⟨("2025-01-01T00:00:00Z").toList, 5⟩, ⟨("2025-01-02T00:00:00Z").toList, 7⟩] :=
  C7_star_gap_fill_amended.2.1 ⟨("2025-01-01T00:00:00Z").toList, 5⟩
    ⟨("2025-01-02T00:00:00Z").toList, 7⟩ [] (Or.inr (by decide))

-- MARK: GhClient::with_pagination (src/gh_client.rs)

/-- One HTTP page response: the `link` header (empty `Str` when the
header is absent, as in the Rust `None => ""` arm) and the decoded
items. -/
structure PageResp (T : Type) where
  linkHeader : Str
  items : List T

/-- The continuation marker `with_pagination` searches in the `link`
header. -/
def relNextPat : Str := ("rel=\"next\"").toList

/-- The loop of `GhClient::with_pagination`, one request per step: the
response items are appended, then the loop continues with `page + 1`
while the `link` header contains the next-relation marker.  `fuel`
bounds the number of requests so the function is total; the API is a
function from (per_page, page) to the response. -/
def withPaginationAux {T : Type} (api : Nat → Nat → PageResp T) :
    Nat → Nat → List T → Nat → Option (List T × Nat)
  | 0, _, _, _ => none
  | fuel + 1, page, acc, reqs =>
    let rep := api 100 page
    let acc := acc ++ rep.items
    let reqs := reqs + 1
    if containsSub rep.linkHeader relNextPat then
      withPaginationAux api fuel (page + 1) acc reqs
    else some (acc, reqs)

/-- `GhClient::with_pagination`: requests start at page 1 with the
fixed page size 100; returns the concatenated items and the number of
requests performed. -/
def with_pagination {T : Type} (api : Nat → Nat → PageResp T) (fuel : Nat) :
    Option (List T × Nat) :=
  withPaginationAux api fuel 1 [] 0

/-- The concatenation, in request order, of the items of `n`
consecutive pages starting at `page`. -/
def pagesConcat {T : Type} (api : Nat → Nat → PageResp T) : Nat → Nat → List T
  | _, 0 => []
  | page, n + 1 => (api 100 page).items ++ pagesConcat api (page + 1) n

theorem pagesConcat_eq_flatten {T : Type} (api : Nat → Nat → PageResp T) :
    ∀ (n page : Nat),
      pagesConcat api page n
        = ((List.range n).map (fun j => (api 100 (page + j)).items)).flatten := by
  intro n
  induction n with
  | zero => intro page; rfl
  | succ m ih =>
    intro page
    rw [show pagesConcat api page (m + 1)
        = (api 100 page).items ++ pagesConcat api (page + 1) m from rfl]
    rw [ih (page + 1), List.range_succ_eq_map, List.map_cons, List.flatten_cons,
      List.map_map, Nat.add_zero]
    congr 1
    congr 1
    apply List.map_congr_left
    intro j _
    have e : page + 1 + j = page + (j + 1) := by omega
    simp [Function.comp, Nat.succ_eq_add_one, e]

theorem withPaginationAux_spec {T : Type} (api : Nat → Nat → PageResp T) :
    ∀ (n fuel page : Nat) (acc : List T) (reqs : Nat),
      (∀ j : Nat, j < n → containsSub (api 100 (page + j)).linkHeader relNextPat = true) →
      containsSub (api 100 (page + n)).linkHeader relNextPat = false →
      n + 1 ≤ fuel →
      withPaginationAux api fuel page acc reqs
        = some (acc ++ pagesConcat api page (n + 1), reqs + (n + 1)) := by
  intro n
  induction n with
  | zero =>
    intro fuel page acc reqs _ hstop hfuel
    cases fuel with
    | zero => exact (Nat.not_succ_le_zero 0 hfuel).elim
    | succ f =>
      rw [Nat.add_zero] at hstop
      simp [withPaginationAux, hstop, pagesConcat]
  | succ m ih =>
    intro fuel page acc reqs hnext hstop hfuel
    cases fuel with
    | zero => exact (Nat.not_succ_le_zero (m + 1) hfuel).elim
    | succ f =>
      have h0 : containsSub (api 100 page).linkHeader relNextPat = true := by
        have h1 := hnext 0 (Nat.succ_pos m)
        rwa [Nat.add_zero] at h1
      simp only [withPaginationAux, h0, if_true]
      rw [ih f (page + 1) (acc ++ (api 100 page).items) (reqs + 1)
        (fun j hj => by
          have h2 := hnext (j + 1) (by omega)
          rwa [show page + (j + 1) = page + 1 + j by omega] at h2)
        (by rwa [show page + 1 + m = page + (m + 1) by omega])
        (by omega)]
      rw [show pagesConcat api page (m + 1 + 1)
          = (api 100 page).items ++ pagesConcat api (page + 1) (m + 1) from rfl]
      rw [show reqs + 1 + (m + 1) = reqs + (m + 1 + 1) by omega]
      rw [List.append_assoc]

/-- C8: pagination termination and completeness.  If pages
`1, ..., k-1` carry a next relation in their link header and page `k`
does not, the pagination helper performs exactly `k` requests (all at
page size 100, pages numbered from 1) and returns exactly the
concatenation of the `k` pages in request order. -/
theorem C8_pagination_termination {T : Type} (api : Nat → Nat → PageResp T)
    (k fuel : Nat) (hk : 0 < k)
    (hnext : ∀ p : Nat, p < k → 1 ≤ p →
      containsSub (api 100 p).linkHeader relNextPat = true)
    (hstop : containsSub (api 100 k).linkHeader relNextPat = false)
    (hfuel : k ≤ fuel) :
    with_pagination api fuel
      = some (((List.range k).map (fun j => (api 100 (1 + j)).items)).flatten, k) := by
  unfold with_pagination
  obtain ⟨m, rfl⟩ : ∃ m, k = m + 1 := ⟨k - 1, by omega⟩
  rw [withPaginationAux_spec api m fuel 1 [] 0
    (fun j hj => hnext (1 + j) (by omega) (by omega))
    (by rwa [show (1 : Nat) + m = m + 1 by omega])
    (by omega)]
  rw [pagesConcat_eq_flatten api (m + 1) 1]
  simp

/-- Stub API for the C8 witness: pages 1-3 answer 100 items each and a
link header with a next relation; page 4 answers 50 items and a header
without one. -/
def stubApi : Nat → Nat → PageResp Nat := fun _ page =>
  if page < 4 then
    ⟨("<https://api.github.com/user/repos?page=2>; rel=\"next\"").toList,
     (List.range 100).map (fun i => 100 * (page - 1) + i)⟩
  else
    ⟨("<https://api.github.com/user/repos?page=3>; rel=\"prev\"").toList,
     (List.range 50).map (fun i => 300 + i)⟩

/-- C8 witness: the stub that returns 3 full pages and then one page
without a continuation signal yields exactly 4 requests and the
concatenation of the 4 pages. -/
theorem C8_pagination_termination_witness :
    with_pagination stubApi 10
      = some (((List.range 4).map (fun j => (stubApi 100 (1 + j)).items)).flatten, 4) :=
  C8_pagination_termination stubApi 4 10 (by decide) (by decide) (by decide)
    (by decide)

-- MARK: ingestion pipeline (helpers.rs::update_metrics)

/-- `gh_client::PullRequest`. -/
structure PullRequest where
  id : Nat
  title : Str
deriving DecidableEq

/-- `gh_client::RepoReferrer`. -/
structure RepoReferrer where
  referrer : Str
  count : Nat
  uniques : Nat
deriving DecidableEq

/-- `gh_client::RepoPopularPath`. -/
structure RepoPopularPath where
  path : Str
  title : Str
  count : Nat
  uniques : Nat
deriving DecidableEq

/-- One `repos` table row (`db_client::RepoItem` plus the description
column; `stars_synced` defaults to FALSE on insert). -/
structure RepoRow where
  id : Nat
  name : Str
  description : Option Str
  archived : Bool
  stars_synced : Bool
deriving DecidableEq

/-- The relational store: the four tables of the schema. -/
structure Db where
  repos : List RepoRow
  stats : StatsDb
  referrers : List RefRow
  paths : List PathRow
deriving DecidableEq

/-- `DbClient::insert_repo`: upsert by id; name/description/archived
are overwritten on conflict, `stars_synced` is left as it is. -/
def upsertRepoRow (rows : List RepoRow) (repo : Repo) : List RepoRow :=
  match rows with
  | [] => [⟨repo.id, repo.full_name, repo.description, repo.archived, false⟩]
  | r :: rest =>
    if r.id = repo.id then
      { r with name := repo.full_name, description := repo.description,
               archived := repo.archived } :: rest
    else r :: upsertRepoRow rest repo

/-- One `insert_referrers` statement: upsert by
(repo_id, date, referrer); on conflict count/uniques are merged with
MAX, on insert the delta columns take their schema default 0. -/
def upsertRef (rows : List RefRow) (repoId : Nat) (date : Str)
    (doc : RepoReferrer) : List RefRow :=
  match rows with
  | [] => [⟨repoId, date, doc.referrer, doc.count, doc.uniques, 0, 0⟩]
  | r :: rest =>
    if r.repo_id = repoId ∧ r.date = date ∧ r.referrer = doc.referrer then
      { r with count := max r.count doc.count,
               uniques := max r.uniques doc.uniques } :: rest
    else r :: upsertRef rest repoId date doc

/-- `DbClient::insert_referrers`: one upsert per fetched referrer. -/
def insert_referrers (rows : List RefRow) (repo : Repo) (date : Str)
    (docs : List RepoReferrer) : List RefRow :=
  docs.foldl (fun rows doc => upsertRef rows repo.id date doc) rows

/-- One `insert_paths` statement: upsert by (repo_id, date, path); the
title is written on insert only, count/uniques merge with MAX. -/
def upsertPath (rows : List PathRow) (repoId : Nat) (date : Str)
    (doc : RepoPopularPath) : List PathRow :=
  match rows with
  | [] => [⟨repoId, date, doc.path, doc.title, doc.count, doc.uniques, 0, 0⟩]
  | r :: rest =>
    if r.repo_id = repoId ∧ r.date = date ∧ r.path = doc.path then
      { r with count := max r.count doc.count,
               uniques := max r.uniques doc.uniques } :: rest
    else r :: upsertPath rest repoId date doc

/-- `DbClient::insert_paths`: one upsert per fetched popular path. -/
def insert_paths (rows : List PathRow) (repo : Repo) (date : Str)
    (docs : List RepoPopularPath) : List PathRow :=
  docs.foldl (fun rows doc => upsertPath rows repo.id date doc) rows

/-- `DbClient::update_deltas` over the whole store: the two windowed
UPDATE statements, one per table. -/
def update_deltas (db : Db) : Db :=
  { db with referrers := lagUpdateRefs db.referrers,
            paths := lagUpdatePaths db.paths }

/-- Everything `update_repo_metrics` fetches for one repository before
writing (open PRs, traffic views/clones, referrers, popular paths). -/
structure FetchData where
  prs : List PullRequest
  views : RepoViews
  clones : RepoClones
  referrers : List RepoReferrer
  paths : List RepoPopularPath
deriving DecidableEq

/-- `update_repo_metrics` once every fetch succeeded: the sequence of
upserts performed for one repository. -/
def update_repo_metrics (db : Db) (repo : Repo) (date : Str) (d : FetchData) : Db :=
  let db := { db with repos := upsertRepoRow db.repos repo }
  let db := { db with stats := insert_stats db.stats repo date }
  let db := { db with stats := insert_views db.stats repo d.views }
  let db := { db with stats := insert_clones db.stats repo d.clones }
  let db := { db with referrers := insert_referrers db.referrers repo date d.referrers }
  let db := { db with paths := insert_paths db.paths repo date d.paths }
  db

/-- The per-repository loop of `update_metrics`: a repository whose
fetch fails (`fetch r = none`, the `Err` arm) is logged and skipped
with `continue`; a successful one is written out. -/
def processRepos (fetch : Repo → Option FetchData) (date : Str)
    (repos : List Repo) (db : Db) : Db :=
  repos.foldl (fun db r =>
    match fetch r with
    | none => db
    | some d => update_repo_metrics db r date d) db

/-- `update_metrics` after the repository list was fetched: filter the
list, process every included repository with per-repository failure
isolation, then run the global delta recomputation.  (The hidden-repo
reconciliation that precedes the filter and the star synchronizer that
follows touch other state and are modelled separately.) -/
def update_metrics (filter : GhsFilter) (fetch : Repo → Option FetchData)
    (date : Str) (repos : List Repo) (db : Db) : Db :=
  let included := repos.filter (fun r => filter.is_included r.full_name r.fork r.archived)
  update_deltas (processRepos fetch date included db)

theorem processRepos_of_fetch_none (fetch : Repo → Option FetchData)
    (date : Str) (xs ys : List Repo) (bad : Repo) (db : Db)
    (h : fetch bad = none) :
    processRepos fetch date (xs ++ bad :: ys) db = processRepos fetch date (xs ++ ys) db := by
  unfold processRepos
  rw [List.foldl_append, List.foldl_append, List.foldl_cons, h]

-- MARK: C2 concrete instance

/-- The UTC day bucket of the C2 example run. -/
def C2date : Str := ("2025-01-02T00:00:00Z").toList

/-- C2 example repositories 1, 2, 3. -/
def C2repo1 : Repo := ⟨1, ("a/r1").toList, none, 5, 1, 1, 1, false, false⟩

def C2repo2 : Repo := ⟨2, ("a/r2").toList, none, 6, 1, 1, 1, false, false⟩

def C2repo3 : Repo := ⟨3, ("a/r3").toList, none, 7, 1, 1, 1, false, false⟩

/-- The fetched metrics the C2 example returns for repositories 1 and
3: one day of views (uniques 3, count 7), one day of clones (uniques 2,
count 4) and one referrer snapshot (count 50, uniques 25). -/
def C2data : FetchData :=
  ⟨[], ⟨3, 7, [⟨C2date, 3, 7⟩]⟩, ⟨2, 4, [⟨C2date, 2, 4⟩]⟩,
   [⟨("google.com").toList, 50, 25⟩], []⟩

/-- The C2 stub fetcher: the traffic fetch for repository 2 fails. -/
def C2fetch : Repo → Option FetchData := fun r =>
  if r.id = 2 then none else some C2data

/-- The store after the C2 example run over repositories 1, 2, 3. -/
def C2final : Db :=
  update_metrics (GhsFilter.new []) C2fetch C2date [C2repo1, C2repo2, C2repo3]
    ⟨[], [], [], []⟩

/-- C2: per-repository failure isolation.  Removing a repository whose
fetch fails from the processed list changes nothing - every other
repository is still processed, its upserts happen, and the global delta
recomputation still runs; concretely with repositories 1, 2, 3 where
the fetch for 2 fails, the day's rows for 1 and 3 are stored (none for
2) and their referrer deltas are recomputed afterward. -/
theorem C2_partial_failure_isolation :
    (∀ (fetch : Repo → Option FetchData) (date : Str) (xs ys : List Repo)
        (bad : Repo) (db : Db),
      fetch bad = none →
      processRepos fetch date (xs ++ bad :: ys) db
        = processRepos fetch date (xs ++ ys) db)
    ∧ (∀ (filter : GhsFilter) (fetch : Repo → Option FetchData) (date : Str)
        (xs ys : List Repo) (bad : Repo) (db : Db),
      fetch bad = none →
      update_metrics filter fetch date (xs ++ bad :: ys) db
        = update_metrics filter fetch date (xs ++ ys) db)
    ∧ statsGet C2final.stats (1, C2date) = some ⟨5, 1, 1, 1, 4, 2, 7, 3⟩
    ∧ statsGet C2final.stats (3, C2date) = some ⟨7, 1, 1, 1, 4, 2, 7, 3⟩
    ∧ statsGet C2final.stats (2, C2date) = none
    ∧ C2final.referrers
        = [⟨1, C2date, ("google.com").toList, 50, 25, 50, 25⟩,
           ⟨3, C2date, ("google.com").toList, 50, 25, 50, 25⟩] := by
  refine ⟨processRepos_of_fetch_none, ?_, by decide, by decide, by decide, by decide⟩
  intro filter fetch date xs ys bad db h
  simp only [update_metrics]
  rw [List.filter_append, List.filter_append, List.filter_cons]
  by_cases hb : filter.is_included bad.full_name bad.fork bad.archived = true
  · rw [if_pos (by simp [hb])]
    rw [processRepos_of_fetch_none fetch date _ _ bad db h]
  · rw [if_neg (by simp [hb])]

/-- C2 witness: dropping the failing repository 2 from the concrete
list leaves the pipeline result unchanged. -/
theorem C2_partial_failure_isolation_witness :
    processRepos C2fetch C2date ([C2repo1] ++ C2repo2 :: [C2repo3]) ⟨[], [], [], []⟩
      = processRepos C2fetch C2date ([C2repo1] ++ [C2repo3]) ⟨[], [], [], []⟩ :=
  C2_partial_failure_isolation.1 C2fetch C2date [C2repo1] [C2repo3] C2repo2
    ⟨[], [], [], []⟩ (by decide)

-- MARK: star synchronizer (helpers.rs::sync_stars)

/-- One day of the reconstructed star history returned by
`get_stars_history`: (day bucket, cumulative stars, stars that day). -/
abbrev StarDay := Str × Nat × Nat

/-- `insert_stars` DO UPDATE clause: `stars = MAX(t.stars,
excluded.stars)`. -/
def mergeStars (t e : StatRow) : StatRow :=
  { t with stars := max t.stars e.stars }

/-- The VALUES row of one `insert_stars` statement: the cumulative
total of the history entry, other columns at their defaults. -/
def starsRowOf (acc : Nat) : StatRow :=
  { StatRow.zero with stars := acc }

/-- `DbClient::insert_stars` as `sync_stars` invokes it: one upsert per
history day, merging the cumulative star total into `repo_stats.stars`
for (repo id, date).  (The snapshot's `db_client` still declares an
older name-keyed signature; the caller passes the repository id and
(date, cumulative, new) triples, and the spec's StarEvent fold merges
the accumulating total, which is what is modelled.) -/
def insert_stars (db : StatsDb) (repoId : Nat) (stars : List StarDay) : StatsDb :=
  stars.foldl (fun db d => upsertWith mergeStars db (repoId, d.1) (starsRowOf d.2.1)) db

/-- Modelled from the spec: `markRepoStarsSynced`
(`DbClient::mark_repo_stars_synced` is called from `sync_stars` but its
definition is not among the sources) - "mark the repository synced":
set the `stars_synced` flag of the row with this repository id. -/
def mark_repo_stars_synced (rows : List RepoRow) (repoId : Nat) : List RepoRow :=
  rows.map (fun r => if r.id = repoId then { r with stars_synced := true } else r)

/-- `DbClient::repos_to_sync`:
`SELECT * FROM repos WHERE stars_synced = FALSE`. -/
def repos_to_sync (rows : List RepoRow) : List RepoRow :=
  rows.filter (fun r => !r.stars_synced)

/-- The loop of `sync_stars`.  A failed history fetch is logged and
`break`s the whole run; a successful one inserts the star rows, marks
the repository synced, adds `(stars_count + 99) / 100` consumed pages
to the budget and `break`s once the budget exceeds 1000 pages. -/
def syncStarsGo (fetch : Str → Option (List StarDay)) :
    List RepoRow → Db → Nat → Db
  | [], db, _ => db
  | r :: rest, db, pages_collected =>
    match fetch r.name with
    | none => db
    | some stars =>
      let db := { db with stats := insert_stars db.stats r.id stars }
      let db := { db with repos := mark_repo_stars_synced db.repos r.id }
      let stars_count := (stars.map (fun d => d.2.2)).sum
      let pages_collected := pages_collected + (stars_count + 99) / 100
      if pages_collected > 1000 then db
      else syncStarsGo fetch rest db pages_collected

/-- `sync_stars`: iterate the repositories with `stars_synced = FALSE`
with a zero page budget. -/
def sync_stars (fetch : Str → Option (List StarDay)) (db : Db) : Db :=
  syncStarsGo fetch (repos_to_sync db.repos) db 0

-- MARK: C9 concrete instance

/-- The three C9 example repositories, none synced yet. -/
def C9repo1 : RepoRow := ⟨1, ("a/s1").toList, none, false, false⟩

def C9repo2 : RepoRow := ⟨2, ("a/s2").toList, none, false, false⟩

def C9repo3 : RepoRow := ⟨3, ("a/s3").toList, none, false, false⟩

/-- The C9 stub star-history fetcher: repository 2's fetch fails;
repositories 1 and 3 would answer a two-day history (1 then 3 stars). -/
def C9fetch : Str → Option (List StarDay) := fun name =>
  if name = ("a/s2").toList then none
  else some [(("2025-01-01T00:00:00Z").toList, 1, 1),
             (("2025-01-02T00:00:00Z").toList, 3, 2)]

/-- The store after the C9 example synchronizer run. -/
def C9final : Db :=
  sync_stars C9fetch ⟨[C9repo1, C9repo2, C9repo3], [], [], []⟩

/-- C9: the synchronizer aborts on failure.  A failed history fetch
leaves the store exactly as it was at that point: the failing
repository is not marked synced and no later repository is processed,
while repositories already processed in the run keep their marks and
rows.  Concretely with unsynced repositories 1, 2, 3 where the fetch
for 2 fails (and 3 would succeed), repository 1 is marked and its star
rows stored, and repositories 2 and 3 stay untouched. -/
theorem C9_sync_stars_abort_on_failure :
    (∀ (fetch : Str → Option (List StarDay)) (bad : RepoRow)
        (rest : List RepoRow) (db : Db) (pages : Nat),
      fetch bad.name = none →
      syncStarsGo fetch (bad :: rest) db pages = db)
    ∧ C9final.repos = [⟨1, ("a/s1").toList, none, false, true⟩, C9repo2, C9repo3]
    ∧ C9final.stats
        = [((1, ("2025-01-01T00:00:00Z").toList), ⟨1, 0, 0, 0, 0, 0, 0, 0⟩),
           ((1, ("2025-01-02T00:00:00Z").toList), ⟨3, 0, 0, 0, 0, 0, 0, 0⟩)] := by
  refine ⟨?_, by decide, by decide⟩
  intro fetch bad rest db pages h
  unfold syncStarsGo
  rw [h]

/-- C9 witness: the abort half applied to the concrete failing
repository 2 with repository 3 still pending. -/
theorem C9_sync_stars_abort_on_failure_witness :
    syncStarsGo C9fetch (C9repo2 :: [C9repo3]) ⟨[C9repo2, C9repo3], [], [], []⟩ 1
      = ⟨[C9repo2, C9repo3], [], [], []⟩ :=
  C9_sync_stars_abort_on_failure.1 C9fetch C9repo2 [C9repo3]
    ⟨[C9repo2, C9repo3], [], [], []⟩ 1 (by decide)

/-- The filter embedding reproduces the behaviour asserted by the Rust
unit tests of `helpers.rs` (empty rules, name rules, case folding,
default-all, exclude lists, meta tokens and fork/archived wildcards,
rule order). -/
theorem ghsfilter_matches_rust_tests :
    (GhsFilter.new (("").toList)).is_included (("foo/bar").toList) false false = true
    ∧ (GhsFilter.new (("").toList)).is_included (("foo/").toList) false false = false
    ∧ (GhsFilter.new (("").toList)).is_included (("foo").toList) false false = false
    ∧ (GhsFilter.new (("").toList)).is_included (("foo/bar/baz").toList) false false = false
    ∧ (GhsFilter.new (("").toList)).is_included (("foo/bar").toList) true true = true
    ∧ (GhsFilter.new (("foo/*,abc/xyz").toList)).is_included (("foo/123").toList) false false = true
    ∧ (GhsFilter.new (("foo/*,abc/xyz").toList)).is_included (("abc/123").toList) false false = false
    ∧ (GhsFilter.new (("foo/*").toList)).is_included (("fooo/bar").toList) false false = false
    ∧ (GhsFilter.new (("FOO/*,Abc/XYZ").toList)).is_included (("foo/bar").toList) false false = true
    ∧ (GhsFilter.new (("foo/*,abc/xyz").toList)).is_included (("FOO/BAR").toList) false false = true
    ∧ (GhsFilter.new (("-*").toList)).is_included (("abc/123").toList) false false = true
    ∧ (GhsFilter.new (("*,!foo/bar,!abc/123").toList)).is_included (("foo/bar").toList) false false = false
    ∧ (GhsFilter.new (("*,!foo/bar,!abc/123").toList)).is_included (("foo/baz").toList) false false = true
    ∧ (GhsFilter.new (("*,!foo/*").toList)).is_included (("foo/baz").toList) false false = false
    ∧ (GhsFilter.new (("*,!foo/*").toList)).is_included (("abc/123").toList) false false = true
    ∧ (GhsFilter.new (("foo/*,!foo/bar").toList)).is_included (("abc/xyz").toList) false false = false
    ∧ (GhsFilter.new (("foo/*,!foo/bar").toList)).is_included (("foo/abc").toList) true true = true
    ∧ (GhsFilter.new (("*,!fork,!archived,foo/baz").toList)).is_included (("foo/bar").toList) true false = false
    ∧ (GhsFilter.new (("*,!fork,!archived,foo/baz").toList)).is_included (("foo/baz").toList) true false = true
    ∧ (GhsFilter.new (("!archived,abc/*,abc/xyz").toList)).is_included (("abc/123").toList) false true = false
    ∧ (GhsFilter.new (("!archived,abc/*,abc/xyz").toList)).is_included (("abc/xyz").toList) false true = true
    ∧ (GhsFilter.new (("foo/*,!fork").toList)).is_included (("foo/bar").toList) true false = false
    ∧ (GhsFilter.new (("!fork,foo/*").toList)).is_included (("foo/bar").toList) false false = true := by
  decide

end Ghstats
